import Mathlib

/-!
Verification of the socks5-proxy pool program: a shallow embedding of the
Go sources (proxy pool, checker, scraper, SOCKS5 dataplane, orchestrator)
and proofs of the specification's claims about them.

Modelling conventions:
* Go strings are `List Char`; Go `int` is `Int` where the source relies on
  signedness (the pool's `current` index and `SwitchTo`'s argument), `Nat`
  elsewhere.
* Go's `%` on ints truncates toward zero, hence `Int.tmod`.
* Each mutex-guarded pool method is a pure map on the pool state; the mutex
  only serialises the operations.
-/

/-- A scraped upstream proxy (struct `Proxy` in scraper.go). -/
structure Proxy where
  IP : List Char
  Port : List Char
  Country : List Char
  City : List Char
deriving Repr, DecidableEq, Inhabited

/-- `Proxy.Addr()`: the display form `ip:port`. -/
def Proxy.Addr (p : Proxy) : List Char := p.IP ++ ':' :: p.Port

/-- Pool state (struct `ProxyPool`): ordered proxy sequence plus the active
index `current`. -/
structure ProxyPool where
  proxies : List Proxy
  current : Int
deriving Repr, DecidableEq, Inhabited

/-- `NewProxyPool()`: the zero value — empty sequence, index 0. -/
def ProxyPool.new : ProxyPool := { proxies := [], current := 0 }

/-- Go slice indexing `l[i]` for the pool's accesses; reachable pool states
keep the index in range, where this agrees with Go (out of range, Go panics
while this total function returns the zero value). -/
def idxGet (l : List Proxy) (i : Int) : Proxy := l.getD i.toNat default

/-- `Update(proxies)`: replace the sequence, reset `current` to 0. -/
def ProxyPool.update (p : ProxyPool) (ps : List Proxy) : ProxyPool :=
  { proxies := ps, current := 0 }

/-- `Current()`: `(Proxy{}, false)` on an empty pool, else the active proxy. -/
def ProxyPool.currentPair (p : ProxyPool) : Proxy × Bool :=
  if p.proxies.length = 0 then (default, false)
  else (idxGet p.proxies p.current, true)

/-- `SwitchNext()`: `current ← (current + 1) % len(proxies)` (Go `%` is the
truncated-division remainder, `Int.tmod`); `(Proxy{}, false)` on empty. -/
def ProxyPool.switchNext (p : ProxyPool) : (Proxy × Bool) × ProxyPool :=
  if p.proxies.length = 0 then ((default, false), p)
  else
    let c := (p.current + 1).tmod (p.proxies.length : Int)
    ((idxGet p.proxies c, true), { p with current := c })

/-- `SwitchTo(index)`: `index < 0 || index >= len(p.proxies)` is rejected with
`false` and the state unchanged; otherwise `current ← index`. -/
def ProxyPool.switchTo (p : ProxyPool) (index : Int) : (Proxy × Bool) × ProxyPool :=
  if index < 0 ∨ (p.proxies.length : Int) ≤ index then ((default, false), p)
  else ((idxGet p.proxies index, true), { p with current := index })

/-- `CurrentIndex()`. -/
def ProxyPool.currentIndex (p : ProxyPool) : Int := p.current

/-- `Size()`. -/
def ProxyPool.size (p : ProxyPool) : Nat := p.proxies.length

/-- `All()`: a copy of the sequence. -/
def ProxyPool.all (p : ProxyPool) : List Proxy := p.proxies

/-- The pool-mutating operations named by the spec's invariant. -/
inductive PoolOp where
  | update (ps : List Proxy)
  | switchNext
  | switchTo (i : Int)
deriving Repr

/-- One pool operation, discarding the returned `(Proxy, bool)`. -/
def applyOp (p : ProxyPool) : PoolOp → ProxyPool
  | .update ps => p.update ps
  | .switchNext => p.switchNext.2
  | .switchTo i => (p.switchTo i).2

/-- A fresh pool driven through a sequence of operations. -/
def runOps (ops : List PoolOp) : ProxyPool := ops.foldl applyOp ProxyPool.new

/-- The pool's index invariant: nonnegative, and in range when non-empty. -/
def PoolInv (p : ProxyPool) : Prop :=
  0 ≤ p.current ∧ (0 < p.proxies.length → p.current < (p.proxies.length : Int))

lemma poolInv_new : PoolInv ProxyPool.new := by
  constructor <;> simp [ProxyPool.new]

lemma poolInv_applyOp (p : ProxyPool) (op : PoolOp) (h : PoolInv p) :
    PoolInv (applyOp p op) := by
  obtain ⟨h0, hlt⟩ := h
  cases op with
  | update ps =>
      refine ⟨by simp [applyOp, ProxyPool.update], ?_⟩
      intro hl
      simp only [applyOp, ProxyPool.update]
      exact_mod_cast hl
  | switchNext =>
      by_cases he : p.proxies.length = 0
      · simp only [applyOp, ProxyPool.switchNext, he, if_pos rfl]
        exact ⟨h0, hlt⟩
      · have hpos : (0 : Int) < (p.proxies.length : Int) := by
          exact_mod_cast Nat.pos_of_ne_zero he
        have h1 : (0 : Int) ≤ p.current + 1 := by omega
        have htm : (p.current + 1).tmod (p.proxies.length : Int)
            = (p.current + 1) % (p.proxies.length : Int) :=
          Int.tmod_eq_emod h1 (le_of_lt hpos)
        simp only [applyOp, ProxyPool.switchNext, he, if_neg he]
        refine ⟨?_, ?_⟩
        · simpa [htm] using Int.emod_nonneg (p.current + 1) (by omega)
        · intro _
          simpa [htm] using Int.emod_lt_of_pos (p.current + 1) hpos
  | switchTo i =>
      by_cases hc : i < 0 ∨ (p.proxies.length : Int) ≤ i
      · simp only [applyOp, ProxyPool.switchTo, if_pos hc]
        exact ⟨h0, hlt⟩
      · have hnc := hc
        push_neg at hc
        simp only [applyOp, ProxyPool.switchTo, if_neg hnc]
        exact ⟨hc.1, fun _ => hc.2⟩

lemma poolInv_foldl (ops : List PoolOp) (p : ProxyPool) (h : PoolInv p) :
    PoolInv (ops.foldl applyOp p) := by
  induction ops generalizing p with
  | nil => exact h
  | cons op rest ih => exact ih _ (poolInv_applyOp p op h)

/-- Claim C1: after any sequence of `Update`/`SwitchNext`/`SwitchTo`
operations applied to a fresh pool, whenever `Size() > 0` the active index
satisfies `0 ≤ CurrentIndex() < Size()`. -/
theorem pool_index_always_in_range (ops : List PoolOp)
    (h : 0 < (runOps ops).size) :
    0 ≤ (runOps ops).currentIndex ∧
      (runOps ops).currentIndex < ((runOps ops).size : Int) := by
  have hinv : PoolInv (runOps ops) := poolInv_foldl ops ProxyPool.new poolInv_new
  exact ⟨hinv.1, hinv.2 h⟩

/-- A sample proxy for concrete witnesses. -/
def pxA : Proxy := { IP := "1.2.3.4".toList, Port := "1080".toList, Country := [], City := [] }

/-- A second sample proxy for concrete witnesses. -/
def pxB : Proxy := { IP := "5.6.7.8".toList, Port := "1081".toList, Country := [], City := [] }

/-- A third sample proxy for concrete witnesses. -/
def pxC : Proxy := { IP := "9.9.9.9".toList, Port := "1082".toList, Country := [], City := [] }

/-- Witness for C1 at a concrete operation sequence. -/
theorem pool_index_always_in_range_witness :
    0 < (runOps [PoolOp.update [pxA, pxB], PoolOp.switchNext, PoolOp.switchTo 1]).size ∧
      (0 ≤ (runOps [PoolOp.update [pxA, pxB], PoolOp.switchNext, PoolOp.switchTo 1]).currentIndex ∧
        (runOps [PoolOp.update [pxA, pxB], PoolOp.switchNext, PoolOp.switchTo 1]).currentIndex <
          ((runOps [PoolOp.update [pxA, pxB], PoolOp.switchNext, PoolOp.switchTo 1]).size : Int)) :=
  ⟨by decide, pool_index_always_in_range _ (by decide)⟩

/-- Claim C6: `SwitchTo(i)` sets the active index to `i` and returns `ok=true`
when `0 ≤ i < Size()`; otherwise it returns `ok=false` and leaves both the
active index and the proxy sequence unchanged. -/
theorem switchTo_contract (p : ProxyPool) (i : Int) :
    (0 ≤ i ∧ i < (p.size : Int) →
      (p.switchTo i).1.2 = true ∧ (p.switchTo i).2.currentIndex = i ∧
        (p.switchTo i).2.proxies = p.proxies) ∧
    (¬ (0 ≤ i ∧ i < (p.size : Int)) →
      (p.switchTo i).1.2 = false ∧ (p.switchTo i).2 = p) := by
  constructor
  · rintro ⟨h0, hlt⟩
    have hc : ¬ (i < 0 ∨ (p.proxies.length : Int) ≤ i) := by
      push_neg
      exact ⟨by omega, by simpa [ProxyPool.size] using hlt⟩
    simp [ProxyPool.switchTo, if_neg hc, ProxyPool.currentIndex]
  · intro h
    have hc : i < 0 ∨ (p.proxies.length : Int) ≤ i := by
      by_contra hcon
      push_neg at hcon
      exact h ⟨by omega, by simpa [ProxyPool.size] using hcon.2⟩
    simp [ProxyPool.switchTo, if_pos hc]

/-- Witness for C6: both the in-range and the out-of-range branch at a
concrete pool. -/
theorem switchTo_contract_witness :
    ((({ proxies := [pxA, pxB], current := 0 } : ProxyPool).switchTo 1).1.2 = true ∧
      (({ proxies := [pxA, pxB], current := 0 } : ProxyPool).switchTo 1).2.currentIndex = 1 ∧
      (({ proxies := [pxA, pxB], current := 0 } : ProxyPool).switchTo 1).2.proxies = [pxA, pxB]) ∧
    ((({ proxies := [pxA, pxB], current := 0 } : ProxyPool).switchTo 5).1.2 = false ∧
      (({ proxies := [pxA, pxB], current := 0 } : ProxyPool).switchTo 5).2 =
        { proxies := [pxA, pxB], current := 0 }) :=
  ⟨(switchTo_contract { proxies := [pxA, pxB], current := 0 } 1).1 (by decide),
   (switchTo_contract { proxies := [pxA, pxB], current := 0 } 5).2 (by decide)⟩

/-- `SwitchNext()` iterated `n` times (dropping the returned pairs). -/
def switchNextN : Nat → ProxyPool → ProxyPool
  | 0, p => p
  | n + 1, p => switchNextN n p.switchNext.2

lemma switchNextN_current (n : Nat) (p : ProxyPool) (hne : p.proxies.length ≠ 0)
    (h0 : 0 ≤ p.current) (hlt : p.current < (p.proxies.length : Int)) :
    (switchNextN n p).current = (p.current + n) % (p.proxies.length : Int) ∧
      (switchNextN n p).proxies = p.proxies := by
  induction n generalizing p with
  | zero =>
      refine ⟨?_, rfl⟩
      simpa [switchNextN] using (Int.emod_eq_of_lt h0 hlt).symm
  | succ n ih =>
      have hpos : (0 : Int) < (p.proxies.length : Int) := by
        exact_mod_cast Nat.pos_of_ne_zero hne
      have htm : (p.current + 1).tmod (p.proxies.length : Int)
          = (p.current + 1) % (p.proxies.length : Int) :=
        Int.tmod_eq_emod (by omega) (le_of_lt hpos)
      have hstep : p.switchNext.2 =
          { p with current := (p.current + 1) % (p.proxies.length : Int) } := by
        simp [ProxyPool.switchNext, hne, htm]
      have h0' : 0 ≤ (p.current + 1) % (p.proxies.length : Int) :=
        Int.emod_nonneg _ (by omega)
      have hlt' : (p.current + 1) % (p.proxies.length : Int) < (p.proxies.length : Int) :=
        Int.emod_lt_of_pos _ hpos
      have := ih { p with current := (p.current + 1) % (p.proxies.length : Int) }
        (by simpa using hne) h0' hlt'
      refine ⟨?_, ?_⟩
      · rw [switchNextN, hstep, this.1]
        simp only
        rw [Int.emod_add_emod]
        congr 1
        push_cast
        ring
      · rw [switchNextN, hstep, this.2]

/-- Claim C7: on a non-empty pool (in a reachable state, i.e. with the active
index in range), calling `SwitchNext()` exactly `Size()` times returns the
active index to its original value. -/
theorem switchNext_size_times_identity (p : ProxyPool) (hne : 0 < p.size)
    (h0 : 0 ≤ p.currentIndex) (hlt : p.currentIndex < (p.size : Int)) :
    (switchNextN p.size p).currentIndex = p.currentIndex := by
  have hne' : p.proxies.length ≠ 0 := Nat.pos_iff_ne_zero.mp hne
  have h := switchNextN_current p.size p hne' h0
    (by simpa [ProxyPool.size] using hlt)
  rw [ProxyPool.currentIndex, h.1]
  have : (p.current + (p.proxies.length : Int)) % (p.proxies.length : Int)
      = p.current % (p.proxies.length : Int) := by
    simpa using Int.add_mul_emod_self_left (a := p.current)
      (b := (p.proxies.length : Int)) (c := 1)
  rw [ProxyPool.size]
  push_cast
  rw [this]
  exact Int.emod_eq_of_lt h0 (by simpa [ProxyPool.size] using hlt)

/-- Witness for C7 at a concrete three-proxy pool. -/
theorem switchNext_size_times_identity_witness :
    0 < ({ proxies := [pxA, pxB, pxC], current := 1 } : ProxyPool).size ∧
      (switchNextN ({ proxies := [pxA, pxB, pxC], current := 1 } : ProxyPool).size
        { proxies := [pxA, pxB, pxC], current := 1 }).currentIndex =
        ({ proxies := [pxA, pxB, pxC], current := 1 } : ProxyPool).currentIndex :=
  ⟨by decide, switchNext_size_times_identity _ (by decide) (by decide) (by decide)⟩

/-- `maxRetries` in `handleConn`. -/
def maxRetries : Nat := 3

/-- `sendReply(conn, status)`: the minimal SOCKS5 reply
`ver status rsv atyp(ipv4) addr(0.0.0.0) port(0)`, as its byte values. -/
def sendReply (status : Nat) : List Nat := [5, status, 0, 1, 0, 0, 0, 0, 0, 0]

/-- Outcome of `handleConn`'s upstream-selection loop: a success reply and a
relay through the chosen upstream, or a failure reply and close. -/
inductive ConnResult where
  | relayed (upstream : Proxy) (reply : List Nat)
  | failed (reply : List Nat)
deriving Repr, DecidableEq

/-- The `for i := 0; i < maxRetries; i++` loop of `handleConn` step 3, entered
at loop counter `i`. Attempt `i = 0` reads `pool.Current()`; later attempts
call `pool.SwitchNext()`. `d i` is the outcome of `dialViaSOCKS5` on attempt
`i` (the network is an oracle). Returns the result, the final pool state, and
the number of attempts made. -/
def tryFrom (d : Nat → Bool) (pool : ProxyPool) (i : Nat) : ConnResult × ProxyPool × Nat :=
  if _h : i < maxRetries then
    let pick := if i = 0 then (pool.currentPair, pool) else pool.switchNext
    if pick.1.2 then
      if d i then (ConnResult.relayed pick.1.1 (sendReply 0), pick.2, i + 1)
      else tryFrom d pick.2 (i + 1)
    else (ConnResult.failed (sendReply 1), pick.2, i + 1)
  else (ConnResult.failed (sendReply 1), pool, i)
termination_by maxRetries - i
decreasing_by simp [maxRetries] at *; omega

/-- The upstream-selection phase of `handleConn` (step 3 of the spec). -/
def handleConnSelect (d : Nat → Bool) (pool : ProxyPool) : ConnResult × ProxyPool × Nat :=
  tryFrom d pool 0

lemma tryFrom_step (d : Nat → Bool) (pool : ProxyPool) (i : Nat) (h : i < maxRetries) :
    tryFrom d pool i =
      (let pick := if i = 0 then (pool.currentPair, pool) else pool.switchNext
       if pick.1.2 then
         if d i then (ConnResult.relayed pick.1.1 (sendReply 0), pick.2, i + 1)
         else tryFrom d pick.2 (i + 1)
       else (ConnResult.failed (sendReply 1), pick.2, i + 1)) := by
  rw [tryFrom]
  simp only [dif_pos h]

lemma tryFrom_stop (d : Nat → Bool) (pool : ProxyPool) (i : Nat) (h : ¬ i < maxRetries) :
    tryFrom d pool i = (ConnResult.failed (sendReply 1), pool, i) := by
  rw [tryFrom]
  simp only [dif_neg h]

lemma currentPair_empty (p : ProxyPool) (h : p.proxies.length = 0) :
    p.currentPair = (default, false) := by
  simp [ProxyPool.currentPair, h]

lemma currentPair_ok (p : ProxyPool) (h : p.proxies.length ≠ 0) :
    p.currentPair.2 = true := by
  simp [ProxyPool.currentPair, h]

lemma switchNext_ok (p : ProxyPool) (h : p.proxies.length ≠ 0) :
    p.switchNext.1.2 = true ∧ p.switchNext.2.proxies = p.proxies := by
  simp [ProxyPool.switchNext, h]

lemma switchNext_flag (p : ProxyPool) (h : p.proxies.length ≠ 0) :
    p.switchNext.1.2 = true := (switchNext_ok p h).1

lemma switchNext_proxies (p : ProxyPool) : p.switchNext.2.proxies = p.proxies := by
  by_cases h : p.proxies.length = 0 <;> simp [ProxyPool.switchNext, h]

lemma handleConnSelect_empty (d : Nat → Bool) (pool : ProxyPool)
    (h : pool.proxies.length = 0) :
    handleConnSelect d pool = (ConnResult.failed (sendReply 1), pool, 1) := by
  unfold handleConnSelect
  rw [tryFrom_step d pool 0 (by norm_num [maxRetries])]
  simp [currentPair_empty pool h]

lemma handleConnSelect_d0 (d : Nat → Bool) (pool : ProxyPool)
    (h : pool.proxies.length ≠ 0) (h0 : d 0 = true) :
    handleConnSelect d pool =
      (ConnResult.relayed pool.currentPair.1 (sendReply 0), pool, 1) := by
  unfold handleConnSelect
  rw [tryFrom_step d pool 0 (by norm_num [maxRetries])]
  simp [currentPair_ok pool h, h0]

lemma handleConnSelect_d1 (d : Nat → Bool) (pool : ProxyPool)
    (h : pool.proxies.length ≠ 0) (h0 : d 0 = false) (h1 : d 1 = true) :
    handleConnSelect d pool =
      (ConnResult.relayed pool.switchNext.1.1 (sendReply 0), pool.switchNext.2, 2) := by
  unfold handleConnSelect
  rw [tryFrom_step d pool 0 (by norm_num [maxRetries])]
  simp only [if_pos rfl, currentPair_ok pool h, if_true, h0, Bool.false_eq_true, if_false]
  rw [tryFrom_step d pool 1 (by norm_num [maxRetries])]
  simp [switchNext_flag pool h, h1]

lemma handleConnSelect_d2 (d : Nat → Bool) (pool : ProxyPool)
    (h : pool.proxies.length ≠ 0) (h0 : d 0 = false) (h1 : d 1 = false)
    (h2 : d 2 = true) :
    handleConnSelect d pool =
      (ConnResult.relayed pool.switchNext.2.switchNext.1.1 (sendReply 0),
        pool.switchNext.2.switchNext.2, 3) := by
  have h' : pool.switchNext.2.proxies.length ≠ 0 := by
    rw [switchNext_proxies]; exact h
  unfold handleConnSelect
  rw [tryFrom_step d pool 0 (by norm_num [maxRetries])]
  simp only [if_pos rfl, currentPair_ok pool h, if_true, h0, Bool.false_eq_true, if_false]
  rw [tryFrom_step d pool 1 (by norm_num [maxRetries])]
  simp only [Nat.one_ne_zero, if_false, switchNext_flag pool h, if_true, h1,
    Bool.false_eq_true]
  rw [tryFrom_step d pool.switchNext.2 2 (by norm_num [maxRetries])]
  simp [switchNext_flag pool.switchNext.2 h', h2]

lemma handleConnSelect_exhausted (d : Nat → Bool) (pool : ProxyPool)
    (h : pool.proxies.length ≠ 0) (h0 : d 0 = false) (h1 : d 1 = false)
    (h2 : d 2 = false) :
    handleConnSelect d pool =
      (ConnResult.failed (sendReply 1), pool.switchNext.2.switchNext.2, 3) := by
  have h' : pool.switchNext.2.proxies.length ≠ 0 := by
    rw [switchNext_proxies]; exact h
  unfold handleConnSelect
  rw [tryFrom_step d pool 0 (by norm_num [maxRetries])]
  simp only [if_pos rfl, currentPair_ok pool h, if_true, h0, Bool.false_eq_true, if_false]
  rw [tryFrom_step d pool 1 (by norm_num [maxRetries])]
  simp only [Nat.one_ne_zero, if_false, switchNext_flag pool h, if_true, h1,
    Bool.false_eq_true]
  rw [tryFrom_step d pool.switchNext.2 2 (by norm_num [maxRetries])]
  simp only [Nat.succ_ne_zero, if_false, switchNext_flag pool.switchNext.2 h', if_true, h2,
    Bool.false_eq_true]
  exact tryFrom_stop d _ 3 (by norm_num [maxRetries])

/-- Claim C2: upstream selection makes at most 3 attempts; attempt 1 obtains
the upstream from `Pool.Current()`, attempts 2 and 3 each obtain it from
`Pool.SwitchNext()`; an empty pool yields the reply `05 01` (general failure)
immediately, and if all 3 dial attempts fail the reply is `05 01`. -/
theorem upstream_selection_contract (pool : ProxyPool) (d : Nat → Bool) :
    (handleConnSelect d pool).2.2 ≤ maxRetries ∧
    (pool.size = 0 →
      (handleConnSelect d pool).1 = ConnResult.failed (sendReply 1) ∧
        (handleConnSelect d pool).2.2 = 1) ∧
    (0 < pool.size → d 0 = false → d 1 = false → d 2 = false →
      (handleConnSelect d pool).1 = ConnResult.failed (sendReply 1) ∧
        (handleConnSelect d pool).2.2 = 3) ∧
    (0 < pool.size → d 0 = true →
      handleConnSelect d pool =
        (ConnResult.relayed pool.currentPair.1 (sendReply 0), pool, 1)) ∧
    (0 < pool.size → d 0 = false → d 1 = true →
      handleConnSelect d pool =
        (ConnResult.relayed pool.switchNext.1.1 (sendReply 0), pool.switchNext.2, 2)) ∧
    (0 < pool.size → d 0 = false → d 1 = false → d 2 = true →
      handleConnSelect d pool =
        (ConnResult.relayed pool.switchNext.2.switchNext.1.1 (sendReply 0),
          pool.switchNext.2.switchNext.2, 3)) := by
  have hbound : (handleConnSelect d pool).2.2 ≤ maxRetries := by
    by_cases he : pool.proxies.length = 0
    · rw [handleConnSelect_empty d pool he]; norm_num [maxRetries]
    · rcases hd0 : d 0 with _ | _
      · rcases hd1 : d 1 with _ | _
        · rcases hd2 : d 2 with _ | _
          · rw [handleConnSelect_exhausted d pool he hd0 hd1 hd2]
            norm_num [maxRetries]
          · rw [handleConnSelect_d2 d pool he hd0 hd1 hd2]
            norm_num [maxRetries]
        · rw [handleConnSelect_d1 d pool he hd0 hd1]; norm_num [maxRetries]
      · rw [handleConnSelect_d0 d pool he hd0]; norm_num [maxRetries]
  refine ⟨hbound, ?_, ?_, ?_, ?_, ?_⟩
  · intro h
    have he : pool.proxies.length = 0 := by simpa [ProxyPool.size] using h
    rw [handleConnSelect_empty d pool he]
    exact ⟨rfl, rfl⟩
  · intro h h0 h1 h2
    have he : pool.proxies.length ≠ 0 := by
      simp [ProxyPool.size] at h; omega
    rw [handleConnSelect_exhausted d pool he h0 h1 h2]
    exact ⟨rfl, rfl⟩
  · intro h h0
    exact handleConnSelect_d0 d pool (by simp [ProxyPool.size] at h; omega) h0
  · intro h h0 h1
    exact handleConnSelect_d1 d pool (by simp [ProxyPool.size] at h; omega) h0 h1
  · intro h h0 h1 h2
    exact handleConnSelect_d2 d pool (by simp [ProxyPool.size] at h; omega) h0 h1 h2

/-- The concrete two-proxy pool used by witnesses. -/
def wpool : ProxyPool := { proxies := [pxA, pxB], current := 0 }

/-- Witness for C2: the empty-pool failure, the exhaustion failure, and the
first-attempt success, at concrete pools and dial oracles. -/
theorem upstream_selection_contract_witness :
    ((handleConnSelect (fun _ => false) ProxyPool.new).1 =
        ConnResult.failed (sendReply 1) ∧
      (handleConnSelect (fun _ => false) ProxyPool.new).2.2 = 1) ∧
    ((handleConnSelect (fun _ => false) wpool).1 = ConnResult.failed (sendReply 1) ∧
      (handleConnSelect (fun _ => false) wpool).2.2 = 3) ∧
    handleConnSelect (fun _ => true) wpool =
      (ConnResult.relayed wpool.currentPair.1 (sendReply 0), wpool, 1) :=
  ⟨(upstream_selection_contract ProxyPool.new (fun _ => false)).2.1 rfl,
   (upstream_selection_contract wpool (fun _ => false)).2.2.1 (by decide) rfl rfl rfl,
   (upstream_selection_contract wpool (fun _ => true)).2.2.2.1 (by decide) rfl⟩

/-- The orchestrator state that a refresh cycle touches: the pool plus the
`scrapeMu`-guarded timing state `lastScrapeTime`/`nextScrapeTime` (absolute
times are modelled as `Nat`; `none` is the zero `time.Time`). -/
structure OrchState where
  pool : ProxyPool
  lastScrapeTime : Option Nat
  nextScrapeTime : Option Nat
deriving Repr, DecidableEq

/-- `refreshPool(cfg, pool)`. `scrapeResult` is the outcome of
`Scrape(cfg.ScrapeURL)` (the network is an oracle), `check` is
`CheckProxies(·, cfg.CheckTimeout, cfg.MaxConcurrent)`, `now` is
`time.Now()` and `interval` is `cfg.ScrapeInterval`. On a scrape error the
function logs and returns at once. -/
def refreshPool (scrapeResult : Except Unit (List Proxy))
    (check : List Proxy → List Proxy) (now interval : Nat)
    (st : OrchState) : OrchState :=
  match scrapeResult with
  | .error _ => st
  | .ok proxies =>
      let alive := check proxies
      { pool := st.pool.update alive,
        lastScrapeTime := some now,
        nextScrapeTime := some (now + interval) }

/-- Claim C8: a refresh cycle in which the scraper returns an error aborts
before `Pool.Update`: the pool's proxy sequence, its active index, and the
timing state (`last_scrape_at`, `next_scrape_at`) are all left exactly as
they were before the cycle. -/
theorem refresh_scrape_error_leaves_state (e : Unit)
    (check : List Proxy → List Proxy) (now interval : Nat) (st : OrchState) :
    (refreshPool (Except.error e) check now interval st).pool.proxies
        = st.pool.proxies ∧
    (refreshPool (Except.error e) check now interval st).pool.currentIndex
        = st.pool.currentIndex ∧
    (refreshPool (Except.error e) check now interval st).lastScrapeTime
        = st.lastScrapeTime ∧
    (refreshPool (Except.error e) check now interval st).nextScrapeTime
        = st.nextScrapeTime ∧
    refreshPool (Except.error e) check now interval st = st :=
  ⟨rfl, rfl, rfl, rfl, rfl⟩

/-- One minute as a Go `time.Duration` (nanoseconds). -/
def minuteNs : Nat := 60000000000

/-- The rotation goroutine's sleep:
`5*time.Minute + time.Duration(rand.Intn(5))*time.Minute`; `r` is the value
returned by `rand.Intn(5)`, which always lies in `[0, 5)`. -/
def rotationDelay (r : Nat) : Nat := 5 * minuteNs + r * minuteNs

/-- One iteration of the rotation loop after the sleep:
`if pool.Size() > 1 { pool.SwitchNext() }`. The flag records whether
`SwitchNext` was called. -/
def rotationStep (p : ProxyPool) : ProxyPool × Bool :=
  if p.size > 1 then (p.switchNext.2, true) else (p, false)

/-- Claim C9: the rotation loop never calls `SwitchNext` when `Size() ≤ 1`,
and every sleep delay equals 5 minutes plus `r` minutes with `r ∈ {0,…,4}`
(the range of `rand.Intn(5)`), hence lies within `[5 min, 9 min]`. -/
theorem rotation_step_and_delay_bounds :
    (∀ p : ProxyPool, p.size ≤ 1 → rotationStep p = (p, false)) ∧
    (∀ r : Nat, r < 5 →
      rotationDelay r = 5 * minuteNs + r * minuteNs ∧
      5 * minuteNs ≤ rotationDelay r ∧ rotationDelay r ≤ 9 * minuteNs) := by
  constructor
  · intro p h
    have : ¬ p.size > 1 := by omega
    simp [rotationStep, this]
  · intro r h
    refine ⟨rfl, ?_, ?_⟩ <;> simp only [rotationDelay, minuteNs] <;> omega

/-- Witness for C9: a one-proxy pool is never rotated, and the delay for
`rand.Intn(5) = 4` is nine minutes, inside the stated bounds. -/
theorem rotation_step_and_delay_bounds_witness :
    rotationStep { proxies := [pxA], current := 0 } =
        ({ proxies := [pxA], current := 0 }, false) ∧
      (rotationDelay 4 = 5 * minuteNs + 4 * minuteNs ∧
        5 * minuteNs ≤ rotationDelay 4 ∧ rotationDelay 4 ≤ 9 * minuteNs) :=
  ⟨rotation_step_and_delay_bounds.1 _ (by decide),
   rotation_step_and_delay_bounds.2 4 (by decide)⟩

/-- `strings.TrimSpace`: strip leading and trailing whitespace. -/
def trimChars (l : List Char) : List Char :=
  ((l.dropWhile Char.isWhitespace).reverse.dropWhile Char.isWhitespace).reverse

/-- `strings.ToLower`: lowercase every character. -/
def lowerChars (l : List Char) : List Char := l.map Char.toLower

/-- `blockedCountries`: the hardcoded set
`{"china": true, "hong kong": true}` (map lookup as membership). -/
def blockedCountries (s : List Char) : Bool :=
  s == "china".toList || s == "hong kong".toList

/-- The body of one checker goroutine (`CheckProxies`'s `go func(px Proxy)`),
with its two network effects as oracles: `geo` is the `(country, city)` pair
returned by `LookupGeo(px.IP, timeout)` and `googleOK` the outcome of
`checkGoogle(px, timeout)`. Returns the value appended to `alive` (`none` if
nothing is appended) and whether the reachability probe (`checkGoogle`) was
issued. -/
def checkOne (px : Proxy) (geo : List Char × List Char) (googleOK : Bool) :
    Option Proxy × Bool :=
  let px' := { px with Country := trimChars geo.1, City := trimChars geo.2 }
  if blockedCountries (lowerChars px'.Country) then (none, false)
  else if googleOK then (some px', true) else (none, true)

/-- One execution of `CheckProxies(proxies, timeout, maxConcurrent)`: the
goroutines run concurrently and append to `alive` under `mu` in the order
they finish, so an execution is determined by the per-candidate oracles
(`geo i`, `gok i` for the candidate at index `i`) together with the
completion order `order`: the sequence of candidate indices in the order the
workers reach the append. -/
def checkProxiesExec (proxies : List Proxy) (geo : Nat → List Char × List Char)
    (gok : Nat → Bool) (order : List Nat) : List Proxy :=
  order.filterMap fun i =>
    match proxies[i]? with
    | some p => (checkOne p (geo i) (gok i)).1
    | none => none

/-- `CheckProxies` as the spec's order-preservation sentence describes it:
the passing candidates in input order (the execution whose completion order
is the input order). -/
def checkProxiesSeq (proxies : List Proxy) (geo : Nat → List Char × List Char)
    (gok : Nat → Bool) : List Proxy :=
  checkProxiesExec proxies geo gok (List.range proxies.length)

/-- Counterexample to C3 as stated: with two candidates that both pass, the
execution in which the second worker finishes first is a valid completion
order (a permutation of the input indices), yet its output lists the second
candidate before the first — input order is not preserved. -/
theorem checker_order_counterexample :
    List.Perm [1, 0] (List.range 2) ∧
    checkProxiesExec [pxA, pxB] (fun _ => ("United States".toList, []))
        (fun _ => true) [1, 0] ≠
      checkProxiesSeq [pxA, pxB] (fun _ => ("United States".toList, []))
        (fun _ => true) := by
  constructor
  · decide
  · decide

/-- Claim C3 (amended): for every execution of `CheckProxies` (every
completion order, i.e. every permutation of the candidate indices), the
output contains exactly the candidates that pass verification — each failing
candidate is absent, with no error — but in worker-completion order, which is
a permutation of (not necessarily equal to) the input-order list of passing
candidates. -/
theorem checker_output_perm_of_passing (proxies : List Proxy)
    (geo : Nat → List Char × List Char) (gok : Nat → Bool) (order : List Nat)
    (h : List.Perm order (List.range proxies.length)) :
    List.Perm (checkProxiesExec proxies geo gok order)
      (checkProxiesSeq proxies geo gok) := by
  unfold checkProxiesSeq checkProxiesExec
  exact h.filterMap _

/-- Witness for the amended C3 at the counterexample's execution. -/
theorem checker_output_perm_of_passing_witness :
    List.Perm [1, 0] (List.range ([pxA, pxB] : List Proxy).length) ∧
    List.Perm
      (checkProxiesExec [pxA, pxB] (fun _ => ("United States".toList, []))
        (fun _ => true) [1, 0])
      (checkProxiesSeq [pxA, pxB] (fun _ => ("United States".toList, []))
        (fun _ => true)) :=
  ⟨by decide,
   checker_output_perm_of_passing [pxA, pxB] _ _ [1, 0] (by decide)⟩

/-- Claim C4: a candidate whose looked-up country — after `TrimSpace` and
`ToLower` — is `"china"` or `"hong kong"` is rejected before the reachability
probe: its goroutine appends nothing and never calls `checkGoogle`, so the
candidate is absent from every execution's output (removing its index from
any completion order leaves the output unchanged). -/
lemma filterMap_filter_ne {α : Type} (f : Nat → Option α) (i : Nat)
    (hfi : f i = none) (order : List Nat) :
    order.filterMap f = (order.filter fun j => decide (j ≠ i)).filterMap f := by
  induction order with
  | nil => rfl
  | cons j rest ih =>
      rw [List.filter_cons]
      by_cases hj : j = i
      · subst hj
        simp [List.filterMap_cons, hfi, ih]
      · have hjd : (decide (j ≠ i)) = true := by simp [hj]
        rw [hjd, if_pos rfl, List.filterMap_cons, List.filterMap_cons, ← ih]

theorem blocked_country_never_output (proxies : List Proxy)
    (geo : Nat → List Char × List Char) (gok : Nat → Bool) (i : Nat)
    (hi : i < proxies.length)
    (hb : blockedCountries (lowerChars (trimChars (geo i).1)) = true) :
    checkOne (proxies.get ⟨i, hi⟩) (geo i) (gok i) = (none, false) ∧
    ∀ order : List Nat,
      checkProxiesExec proxies geo gok order =
        checkProxiesExec proxies geo gok
          (order.filter fun j => decide (j ≠ i)) := by
  have hone : ∀ px : Proxy, checkOne px (geo i) (gok i) = (none, false) := by
    intro px
    simp [checkOne, hb]
  refine ⟨hone _, ?_⟩
  intro order
  unfold checkProxiesExec
  apply filterMap_filter_ne
  have hsome : proxies[i]? = some (proxies.get ⟨i, hi⟩) :=
    List.getElem?_eq_getElem hi
  simp [hsome, hone]

/-- Witness for C4: a candidate looked up as `" China "` (note the spaces,
removed by `TrimSpace`) is rejected with no reachability probe, and removing
it from a completion order changes nothing. -/
theorem blocked_country_never_output_witness :
    checkOne pxA (" China ".toList, "Beijing".toList) true = (none, false) ∧
    checkProxiesExec [pxA] (fun _ => (" China ".toList, "Beijing".toList))
        (fun _ => true) [0] =
      checkProxiesExec [pxA] (fun _ => (" China ".toList, "Beijing".toList))
        (fun _ => true) ([0].filter fun j => decide (j ≠ 0)) :=
  ⟨(blocked_country_never_output [pxA]
      (fun _ => (" China ".toList, "Beijing".toList)) (fun _ => true) 0
      (by decide) (by decide)).1,
   (blocked_country_never_output [pxA]
      (fun _ => (" China ".toList, "Beijing".toList)) (fun _ => true) 0
      (by decide) (by decide)).2 [0]⟩

/-- One `\d{1,3}` group of the proxy regex followed by the literal `sep`, at
the head of `cs`. The engine's greedy match with backtracking reduces to:
take the maximal digit run (it must have 1 to 3 digits — every shorter greedy
choice is still followed by a digit, not by `sep`) and then require `sep`.
Returns the digit group and the rest after `sep`. -/
def matchOctet (sep : Char) (cs : List Char) : Option (List Char × List Char) :=
  if 1 ≤ (cs.takeWhile Char.isDigit).length ∧ (cs.takeWhile Char.isDigit).length ≤ 3 then
    match cs.dropWhile Char.isDigit with
    | c :: rest' => if c = sep then some (cs.takeWhile Char.isDigit, rest') else none
    | [] => none
  else none

/-- The groups of `(\d{1,3}\.\d{1,3}\.\d{1,3}\.\d{1,3}):(\d+)` (what follows
the scheme literal in `proxyRegex`): the IP group, the port group (maximal
digit run, nonempty — greedy `\d+` with nothing after it), and the remaining
input after the match. -/
def matchIpPort (cs : List Char) : Option (List Char × List Char × List Char) :=
  match matchOctet '.' cs with
  | none => none
  | some (o1, r1) =>
    match matchOctet '.' r1 with
    | none => none
    | some (o2, r2) =>
      match matchOctet '.' r2 with
      | none => none
      | some (o3, r3) =>
        match matchOctet ':' r3 with
        | none => none
        | some (o4, r4) =>
          if (r4.takeWhile Char.isDigit).length = 0 then none
          else some (o1 ++ '.' :: o2 ++ '.' :: o3 ++ '.' :: o4,
            r4.takeWhile Char.isDigit, r4.dropWhile Char.isDigit)

/-- The scheme literal of `proxyRegex`. -/
def schemeChars : List Char := "socks5://".toList

/-- Strip the literal `lit` from the head of `cs`. -/
def dropLit : List Char → List Char → Option (List Char)
  | [], cs => some cs
  | _ :: _, [] => none
  | l :: ls, c :: cs => if c = l then dropLit ls cs else none

/-- One attempt of `proxyRegex` anchored at the head of `cs`. -/
def matchAt (cs : List Char) : Option (List Char × List Char × List Char) :=
  match dropLit schemeChars cs with
  | none => none
  | some rest => matchIpPort rest

/-- `proxyRegex.FindAllStringSubmatch(body, -1)`: scan left to right trying a
match at every position; on a match emit its `(ip, port)` groups and resume
after the match (matches do not overlap). `fuel` bounds the recursion; every
step consumes at least one character, so `fuel = cs.length` reproduces the
whole scan. -/
def scanAux : Nat → List Char → List (List Char × List Char)
  | 0, _ => []
  | _ + 1, [] => []
  | fuel + 1, c :: rest =>
    match matchAt (c :: rest) with
    | some (ip, port, rest') => (ip, port) :: scanAux fuel rest'
    | none => scanAux fuel rest

/-- All `(ip, port)` submatches of `proxyRegex` in `cs`, in order. -/
def findAllMatches (cs : List Char) : List (List Char × List Char) :=
  scanAux cs.length cs

/-- The dedup-and-construct loop of `Scrape`: `seen` holds the addresses
already emitted; each new `(ip, port)` yields
`Proxy{IP: TrimSpace(m[1]), Port: TrimSpace(m[2])}` (country and city are the
zero value `""`). -/
def dedupBuild (seen : List (List Char)) :
    List (List Char × List Char) → List Proxy
  | [] => []
  | (ip, port) :: rest =>
    let addr := ip ++ ':' :: port
    if seen.contains addr then dedupBuild seen rest
    else { IP := trimChars ip, Port := trimChars port, Country := [], City := [] }
        :: dedupBuild (addr :: seen) rest

/-- `Scrape(url)` applied to the fetched body (the HTTP fetch itself is an
external effect): the `Proxy` values the program constructs from `body`. -/
def scrapeBody (body : List Char) : List Proxy :=
  dedupBuild [] (findAllMatches body)

/-- Modelled from the spec's words (§4.1), for comparison with the code: an
IP octet of a dotted-quad IPv4 string — a digit run whose value is at most
255. -/
def spec_isOctet (l : List Char) : Bool :=
  decide (l ≠ []) && l.all Char.isDigit &&
    decide (l.foldl (fun acc c => 10 * acc + (c.toNat - '0'.toNat)) 0 ≤ 255)

/-- Modelled from the spec's words (§4.1): `IP must be dotted-quad`. -/
def spec_isDottedQuadIPv4 (ip : List Char) : Bool :=
  match ip.splitOn '.' with
  | [a, b, c, d] => spec_isOctet a && spec_isOctet b && spec_isOctet c && spec_isOctet d
  | _ => false

/-- Modelled from the spec's words (§4.1): `port must parse to 1..65535`. -/
def spec_portOK (port : List Char) : Bool :=
  decide (port ≠ []) && port.all Char.isDigit &&
    decide (1 ≤ port.foldl (fun acc c => 10 * acc + (c.toNat - '0'.toNat)) 0 ∧
      port.foldl (fun acc c => 10 * acc + (c.toNat - '0'.toNat)) 0 ≤ 65535)

/-- The spec's claimed construction-time validation of a `Proxy`. -/
def spec_validProxy (p : Proxy) : Bool :=
  spec_isDottedQuadIPv4 p.IP && spec_portOK p.Port

/-- Counterexample to C5 as stated: the scraper's regex accepts any nonempty
digit run as the port, so `Scrape` constructs a `Proxy` with port `99999`,
which does not parse into `1..65535`. -/
theorem scrape_validation_counterexample :
    scrapeBody "socks5://1.2.3.4:99999".toList =
      [{ IP := "1.2.3.4".toList, Port := "99999".toList,
         Country := [], City := [] }] ∧
    spec_validProxy
      { IP := "1.2.3.4".toList, Port := "99999".toList,
        Country := [], City := [] } = false := by
  constructor
  · decide
  · decide

/-- What the regex does guarantee for one octet group. -/
def octetShape (o : List Char) : Prop :=
  o ≠ [] ∧ o.length ≤ 3 ∧ o.all Char.isDigit = true

lemma all_takeWhile_self (p : Char → Bool) (l : List Char) :
    (l.takeWhile p).all p = true := by
  induction l with
  | nil => rfl
  | cons c cs ih =>
      by_cases h : p c <;> simp [List.takeWhile_cons, h, ih]

lemma matchOctet_shape (sep : Char) (cs o r : List Char)
    (h : matchOctet sep cs = some (o, r)) : octetShape o := by
  unfold matchOctet at h
  split at h
  · rename_i hlen
    split at h
    · split at h
      · have ho : cs.takeWhile Char.isDigit = o :=
          congrArg Prod.fst (Option.some.inj h)
        refine ⟨?_, ?_, ?_⟩
        · intro hno
          rw [← ho] at hno
          rw [hno] at hlen
          simp at hlen
        · rw [← ho]; exact hlen.2
        · rw [← ho]; exact all_takeWhile_self Char.isDigit cs
      · exact absurd h (by simp)
    · exact absurd h (by simp)
  · exact absurd h (by simp)

lemma matchIpPort_shape (cs ip port r : List Char)
    (h : matchIpPort cs = some (ip, port, r)) :
    (∃ o1 o2 o3 o4 : List Char, octetShape o1 ∧ octetShape o2 ∧
      octetShape o3 ∧ octetShape o4 ∧
      ip = o1 ++ '.' :: o2 ++ '.' :: o3 ++ '.' :: o4) ∧
    port ≠ [] ∧ port.all Char.isDigit = true := by
  unfold matchIpPort at h
  split at h
  · exact absurd h (by simp)
  · rename_i o1 r1 h1
    split at h
    · exact absurd h (by simp)
    · rename_i o2 r2 h2
      split at h
      · exact absurd h (by simp)
      · rename_i o3 r3 h3
        split at h
        · exact absurd h (by simp)
        · rename_i o4 r4 h4
          split at h
          · exact absurd h (by simp)
          · rename_i hp
            simp only [Option.some.injEq, Prod.mk.injEq] at h
            obtain ⟨hip, hport, _⟩ := h
            refine ⟨⟨o1, o2, o3, o4, matchOctet_shape _ _ _ _ h1,
              matchOctet_shape _ _ _ _ h2, matchOctet_shape _ _ _ _ h3,
              matchOctet_shape _ _ _ _ h4, hip.symm⟩, ?_, ?_⟩
            · intro hnil
              rw [← hport] at hnil
              simp [hnil] at hp
            · rw [← hport]; exact all_takeWhile_self Char.isDigit r4

lemma matchAt_shape (cs ip port r : List Char)
    (h : matchAt cs = some (ip, port, r)) :
    (∃ o1 o2 o3 o4 : List Char, octetShape o1 ∧ octetShape o2 ∧
      octetShape o3 ∧ octetShape o4 ∧
      ip = o1 ++ '.' :: o2 ++ '.' :: o3 ++ '.' :: o4) ∧
    port ≠ [] ∧ port.all Char.isDigit = true := by
  unfold matchAt at h
  cases hd : dropLit schemeChars cs with
  | none => rw [hd] at h; exact absurd h (by simp)
  | some rest => rw [hd] at h; exact matchIpPort_shape rest ip port r h

lemma scanAux_shape (fuel : Nat) (cs ip port : List Char)
    (h : (ip, port) ∈ scanAux fuel cs) :
    (∃ o1 o2 o3 o4 : List Char, octetShape o1 ∧ octetShape o2 ∧
      octetShape o3 ∧ octetShape o4 ∧
      ip = o1 ++ '.' :: o2 ++ '.' :: o3 ++ '.' :: o4) ∧
    port ≠ [] ∧ port.all Char.isDigit = true := by
  induction fuel generalizing cs with
  | zero => simp [scanAux] at h
  | succ fuel ih =>
      cases cs with
      | nil => simp [scanAux] at h
      | cons c rest =>
          rw [scanAux] at h
          cases hm : matchAt (c :: rest) with
          | none => rw [hm] at h; exact ih rest h
          | some t =>
              obtain ⟨mip, mport, mrest⟩ := t
              rw [hm] at h
              rcases List.mem_cons.mp h with heq | htail
              · obtain ⟨hip, hport⟩ := Prod.mk.injEq .. ▸ heq
                subst hip; subst hport
                exact matchAt_shape _ _ _ _ hm
              · exact ih mrest htail

lemma dedupBuild_mem (ms : List (List Char × List Char))
    (seen : List (List Char)) (p : Proxy) (h : p ∈ dedupBuild seen ms) :
    ∃ ip port : List Char, (ip, port) ∈ ms ∧
      p = { IP := trimChars ip, Port := trimChars port,
            Country := [], City := [] } := by
  induction ms generalizing seen with
  | nil => simp [dedupBuild] at h
  | cons m rest ih =>
      obtain ⟨ip, port⟩ := m
      rw [dedupBuild] at h
      by_cases hseen : seen.contains (ip ++ ':' :: port)
      · rw [if_pos hseen] at h
        obtain ⟨ip', port', hm, hp⟩ := ih seen h
        exact ⟨ip', port', List.mem_cons_of_mem _ hm, hp⟩
      · rw [if_neg hseen] at h
        rcases List.mem_cons.mp h with heq | htail
        · exact ⟨ip, port, List.mem_cons_self _ _, heq⟩
        · obtain ⟨ip', port', hm, hp⟩ := ih _ htail
          exact ⟨ip', port', List.mem_cons_of_mem _ hm, hp⟩

lemma dropWhile_eq_self_of_none (p : Char → Bool) (l : List Char)
    (h : ∀ c ∈ l, p c = false) : l.dropWhile p = l := by
  cases l with
  | nil => rfl
  | cons c cs =>
      rw [List.dropWhile_cons, h c (List.mem_cons_self _ _)]
      simp

lemma trimChars_eq_self (l : List Char)
    (h : ∀ c ∈ l, Char.isWhitespace c = false) : trimChars l = l := by
  unfold trimChars
  rw [dropWhile_eq_self_of_none _ l h,
    dropWhile_eq_self_of_none _ l.reverse (fun c hc => h c (List.mem_reverse.mp hc)),
    List.reverse_reverse]

lemma isDigit_not_ws (c : Char) (h : c.isDigit = true) :
    c.isWhitespace = false := by
  unfold Char.isWhitespace
  simp only [Bool.or_eq_false_iff, decide_eq_false_iff_not]
  refine ⟨⟨⟨?_, ?_⟩, ?_⟩, ?_⟩ <;> rintro rfl <;> exact absurd h (by decide)

/-- Claim C5 (amended): construction in `Scrape` enforces only the regex
shape — the IP is four 1–3-digit runs joined by dots and the port is a
nonempty string of digits; neither the octet values nor the port range
`1..65535` are validated. -/
theorem scrape_construct_shape (body : List Char) (p : Proxy)
    (h : p ∈ scrapeBody body) :
    (∃ o1 o2 o3 o4 : List Char, octetShape o1 ∧ octetShape o2 ∧
      octetShape o3 ∧ octetShape o4 ∧
      p.IP = o1 ++ '.' :: o2 ++ '.' :: o3 ++ '.' :: o4) ∧
    p.Port ≠ [] ∧ p.Port.all Char.isDigit = true := by
  obtain ⟨ip, port, hmem, hp⟩ := dedupBuild_mem _ _ p h
  have hshape := scanAux_shape body.length body ip port hmem
  obtain ⟨⟨o1, o2, o3, o4, s1, s2, s3, s4, hip⟩, hpne, hpd⟩ := hshape
  have hipws : ∀ c ∈ ip, Char.isWhitespace c = false := by
    intro c hc
    rw [hip] at hc
    simp only [List.mem_append, List.mem_cons] at hc
    have hdig : ∀ (o : List Char), octetShape o → c ∈ o →
        Char.isWhitespace c = false := by
      intro o hs hco
      exact isDigit_not_ws c (List.all_eq_true.mp hs.2.2 c hco)
    rcases hc with ((h1 | rfl | h2) | rfl | h3) | rfl | h4
    · exact hdig o1 s1 h1
    · decide
    · exact hdig o2 s2 h2
    · decide
    · exact hdig o3 s3 h3
    · decide
    · exact hdig o4 s4 h4
  have hportws : ∀ c ∈ port, Char.isWhitespace c = false := by
    intro c hc
    exact isDigit_not_ws c (List.all_eq_true.mp hpd c hc)
  rw [hp]
  simp only [trimChars_eq_self ip hipws, trimChars_eq_self port hportws]
  exact ⟨⟨o1, o2, o3, o4, s1, s2, s3, s4, hip⟩, hpne, hpd⟩

/-- Witness for the amended C5 at the counterexample's body. -/
theorem scrape_construct_shape_witness :
    ({ IP := "1.2.3.4".toList, Port := "99999".toList, Country := [],
        City := [] } : Proxy) ∈ scrapeBody "socks5://1.2.3.4:99999".toList ∧
    ((∃ o1 o2 o3 o4 : List Char, octetShape o1 ∧ octetShape o2 ∧
        octetShape o3 ∧ octetShape o4 ∧
        ({ IP := "1.2.3.4".toList, Port := "99999".toList, Country := [],
            City := [] } : Proxy).IP =
          o1 ++ '.' :: o2 ++ '.' :: o3 ++ '.' :: o4) ∧
      ({ IP := "1.2.3.4".toList, Port := "99999".toList, Country := [],
          City := [] } : Proxy).Port ≠ [] ∧
      (({ IP := "1.2.3.4".toList, Port := "99999".toList, Country := [],
          City := [] } : Proxy).Port).all Char.isDigit = true) :=
  ⟨by decide, scrape_construct_shape "socks5://1.2.3.4:99999".toList _ (by decide)⟩

/-- State of one `CheckProxies` run, for the semaphore discipline: `pending`
candidates that the main loop has not yet submitted, `buffered` tokens inside
the channel `sem`, `active` running worker goroutines (each buffered token
belongs to one submitted worker). -/
structure CheckerSt where
  pending : Nat
  buffered : Nat
  active : Nat
deriving Repr, DecidableEq

/-- Interleaved execution of `CheckProxies` with `sem = make(chan struct{},
cap)`. `submit` is one main-loop iteration — `wg.Add(1); sem <- struct{}{};
go func(px)` — enabled only while the buffer is below capacity (a send on a
full or zero-capacity channel blocks until some receiver is ready, and the
only receivers are workers this same loop has yet to spawn); `finish` is a
worker completing (`defer wg.Done()` and `defer func() { <-sem }()`). -/
inductive CheckerStep (cap : Nat) : CheckerSt → CheckerSt → Prop
  | submit (s : CheckerSt) (hp : 0 < s.pending) (hb : s.buffered < cap) :
      CheckerStep cap s ⟨s.pending - 1, s.buffered + 1, s.active + 1⟩
  | finish (s : CheckerSt) (ha : 0 < s.active) (hb : 0 < s.buffered) :
      CheckerStep cap s ⟨s.pending, s.buffered - 1, s.active - 1⟩

/-- The initial state of `CheckProxies(proxies, …)` with `n = len(proxies)`. -/
def checkerInit (n : Nat) : CheckerSt := ⟨n, 0, 0⟩

/-- `wg.Wait()` has returned and `CheckProxies` returns its result: every
candidate was submitted and every worker has finished. -/
def checkerDone (s : CheckerSt) : Prop := s.pending = 0 ∧ s.active = 0

/-- `make(chan struct{}, maxConcurrent)`: a negative capacity panics at
runtime (`none`); otherwise the channel has that capacity. -/
def makeChan (cap : Int) : Option Nat := if cap < 0 then none else some cap.toNat

/-- Claim C10: `CheckProxies` terminates with a result only when
`maxConcurrent ≥ 1`. A negative capacity panics in `make`; capacity 0 with a
non-empty candidate list deadlocks — no transition is enabled from the
initial state, so the first `sem <-` blocks forever before any worker starts
and the done state is unreachable; capacity ≥ 1 reaches the done state. -/
theorem checkProxies_semaphore_termination (cap : Int) (n : Nat) :
    (cap < 0 → makeChan cap = none) ∧
    (cap = 0 → 0 < n →
      (∀ s : CheckerSt,
        Relation.ReflTransGen (CheckerStep 0) (checkerInit n) s →
          s = checkerInit n) ∧
      ¬ checkerDone (checkerInit n)) ∧
    (1 ≤ cap →
      ∃ ncap : Nat, makeChan cap = some ncap ∧ 1 ≤ ncap ∧
        ∃ s : CheckerSt,
          Relation.ReflTransGen (CheckerStep ncap) (checkerInit n) s ∧
            checkerDone s) := by
  refine ⟨?_, ?_, ?_⟩
  · intro h
    simp [makeChan, h]
  · intro hz hn
    have hstuck : ∀ t : CheckerSt, ¬ CheckerStep 0 (checkerInit n) t := by
      intro t hstep
      cases hstep with
      | submit hp hb => exact absurd hb (by omega)
      | finish ha hb =>
          have : (checkerInit n).active = 0 := rfl
          omega
    constructor
    · intro s hrtg
      rcases Relation.ReflTransGen.cases_head hrtg with heq | ⟨t, hstep, _⟩
      · exact heq.symm
      · exact absurd hstep (hstuck t)
    · intro hdone
      exact absurd hdone.1 (by simpa [checkerInit] using Nat.pos_iff_ne_zero.mp hn)
  · intro hcap
    have hncap : makeChan cap = some cap.toNat := by
      simp [makeChan]
      omega
    refine ⟨cap.toNat, hncap, by omega, ?_⟩
    have key : ∀ m : Nat,
        ∃ s : CheckerSt,
          Relation.ReflTransGen (CheckerStep cap.toNat) (checkerInit m) s ∧
            checkerDone s := by
      intro m
      induction m with
      | zero => exact ⟨checkerInit 0, Relation.ReflTransGen.refl, rfl, rfl⟩
      | succ k ih =>
          obtain ⟨s, hrtg, hdone⟩ := ih
          refine ⟨s, ?_, hdone⟩
          have hstep1 : CheckerStep cap.toNat (checkerInit (k + 1)) ⟨k, 1, 1⟩ :=
            CheckerStep.submit (checkerInit (k + 1)) (by simp [checkerInit])
              (by simp [checkerInit]; omega)
          have hstep2 : CheckerStep cap.toNat (⟨k, 1, 1⟩ : CheckerSt) (checkerInit k) :=
            CheckerStep.finish ⟨k, 1, 1⟩ (by simp) (by simp)
          exact Relation.ReflTransGen.head hstep1
            (Relation.ReflTransGen.head hstep2 hrtg)
    exact key n

/-- Witness for C10: panic at capacity −1, deadlock (done unreachable) at
capacity 0 with one candidate, successful termination at capacity 1 with two
candidates. -/
theorem checkProxies_semaphore_termination_witness :
    makeChan (-1) = none ∧
    ¬ checkerDone (checkerInit 1) ∧
    (∃ ncap : Nat, makeChan 1 = some ncap ∧ 1 ≤ ncap ∧
      ∃ s : CheckerSt,
        Relation.ReflTransGen (CheckerStep ncap) (checkerInit 2) s ∧
          checkerDone s) :=
  ⟨(checkProxies_semaphore_termination (-1) 0).1 (by decide),
   ((checkProxies_semaphore_termination 0 1).2.1 rfl (by decide)).2,
   (checkProxies_semaphore_termination 1 2).2.2 (by decide)⟩
